import Mathlib

/-!
Verification of the bounded experience-replay store of GVizDoom
(`src/training/memory.py`): the `ExperienceReplay` facade and the
array-backed `SumTree` that supports prioritized sampling.

The embedding is shallow: Python floats become exact rationals (`ℚ`),
numpy arrays and the deque become Lean lists, records are opaque and
represented by `ℕ` identifiers, and the two sources of randomness
(`random.sample` and `np.random.uniform`) are passed in as explicit
arguments.  The non-integer powers `x ** (-PER_b)` and `x ** PER_a`
computed by numpy are abstracted by an explicit function argument
`pw : ℚ → ℚ → ℚ` (base, exponent); every theorem below is parametric in
it, so nothing depends on the numeric behaviour of floating-point `**`.
-/

/-- The `SumTree` class (`memory.py` lines 180-312): a flat array of
`2*capacity-1` rationals (`tree`), a parallel data array of `capacity`
records, and the ring insertion pointer. -/
structure SumTree where
  capacity : ℕ
  tree : List ℚ
  data : List ℕ
  data_pointer : ℕ
deriving Repr, DecidableEq

/-- `SumTree.__init__`: all tree nodes and data slots start at zero,
the pointer at the first leaf. -/
def SumTree.init (capacity : ℕ) : SumTree :=
  { capacity := capacity
    tree := List.replicate (2 * capacity - 1) 0
    data := List.replicate capacity 0
    data_pointer := 0 }

/-- The ancestor walk of `SumTree.update` (lines 249-268): while the
index is nonzero, move to the parent `(i-1)/2` and add `change` there. -/
def propagate (tree : List ℚ) (i : ℕ) (change : ℚ) : List ℚ :=
  if i = 0 then tree
  else
    let j := (i - 1) / 2
    propagate (tree.set j (tree.getD j 0 + change)) j change
termination_by i
decreasing_by simp_wf; omega

/-- `SumTree.update` (lines 243-268): record the delta at the node,
overwrite it, and propagate the delta to every ancestor. -/
def SumTree.update (t : SumTree) (tree_index : ℕ) (priority : ℚ) : SumTree :=
  let change := priority - t.tree.getD tree_index 0
  { t with tree := propagate (t.tree.set tree_index priority) tree_index change }

/-- `SumTree.add` (lines 215-238): write the record at the pointer,
update the leaf `data_pointer + capacity - 1`, advance the pointer and
wrap it to 0 once it reaches `capacity`. -/
def SumTree.add (t : SumTree) (priority : ℚ) (x : ℕ) : SumTree :=
  let tree_index := t.data_pointer + t.capacity - 1
  let t1 : SumTree := { t with data := t.data.set t.data_pointer x }
  let t2 := t1.update tree_index priority
  let dp := t2.data_pointer + 1
  { t2 with data_pointer := if t2.capacity ≤ dp then 0 else dp }

/-- The descent loop of `SumTree.get_leaf` (lines 286-304): starting
from the root, go to the left child when `v <= tree[left]`, otherwise
subtract `tree[left]` and go right; stop when the left child index
falls outside the array.  Returns the leaf index together with the
remaining value of `v`. -/
def getLeafLoop (tree : List ℚ) (parent_index : ℕ) (v : ℚ) : ℕ × ℚ :=
  if tree.length ≤ 2 * parent_index + 1 then (parent_index, v)
  else if v ≤ tree.getD (2 * parent_index + 1) 0 then
    getLeafLoop tree (2 * parent_index + 1) v
  else
    getLeafLoop tree (2 * parent_index + 2) (v - tree.getD (2 * parent_index + 1) 0)
termination_by tree.length - parent_index
decreasing_by all_goals (simp_wf; omega)

/-- `SumTree.get_leaf` (lines 274-308): run the descent and return the
leaf index, its priority, and the stored record.  The Python data index
`leaf_index - capacity + 1` is written `leaf_index + 1 - capacity`,
which agrees with it on every reachable leaf (`leaf_index ≥ capacity-1`). -/
def SumTree.get_leaf (t : SumTree) (v : ℚ) : ℕ × ℚ × ℕ :=
  let leaf_index := (getLeafLoop t.tree 0 v).1
  (leaf_index, t.tree.getD leaf_index 0, t.data.getD (leaf_index + 1 - t.capacity) 0)

/-- `SumTree.total_priority` (lines 310-312): the root node. -/
def SumTree.total_priority (t : SumTree) : ℚ :=
  t.tree.getD 0 0

/-- `np.max` over a nonempty slice (empty slice modelled as 0, an
unreachable case for the slices the code takes). -/
def listMax : List ℚ → ℚ
  | [] => 0
  | [a] => a
  | a :: b :: rest => max a (listMax (b :: rest))

/-- `np.min` over a nonempty slice (empty slice modelled as 0). -/
def listMin : List ℚ → ℚ
  | [] => 0
  | [a] => a
  | a :: b :: rest => min a (listMin (b :: rest))

/-- The `ExperienceReplay` facade (`memory.py` lines 12-177).  The
Python object holds either a deque or a `SumTree` in `self.buffer`
depending on `prioritized`; the embedding carries both fields and the
mode flag selects which one is live.  `PER_b` is the per-instance
annealed bias-correction parameter. -/
structure ExperienceReplay where
  capacity : ℕ
  storage_size : ℕ
  include_last : ℕ
  prioritized : Bool
  save_experience : Bool
  dq : List ℕ
  st : SumTree
  PER_b : ℚ
deriving Repr, DecidableEq

/-- Class constant `PER_e = 0.01` (line 13). -/
def ExperienceReplay.PER_e : ℚ := 1 / 100

/-- Class constant `PER_a = 0.6` (line 14). -/
def ExperienceReplay.PER_a : ℚ := 3 / 5

/-- Class constant `PER_b = 0.4` (line 15), the initial beta. -/
def ExperienceReplay.PER_b0 : ℚ := 2 / 5

/-- Class constant `PER_b_increment = 0.001` (line 16). -/
def ExperienceReplay.PER_b_increment : ℚ := 1 / 1000

/-- Class constant `absolute_error_upper = 1.` (line 18). -/
def ExperienceReplay.absolute_error_upper : ℚ := 1

/-- `ExperienceReplay.__init__` (lines 20-37), without the file path. -/
def ExperienceReplay.mkStore (save prioritized : Bool)
    (capacity storage_size n_last_samples_included : ℕ) : ExperienceReplay :=
  { capacity := capacity
    storage_size := storage_size
    include_last := n_last_samples_included
    prioritized := prioritized
    save_experience := save
    dq := []
    st := SumTree.init capacity
    PER_b := ExperienceReplay.PER_b0 }

/-- `ExperienceReplay.buffer_size` (lines 171-177): the deque length,
or the raw `data_pointer` of the `SumTree`. -/
def ExperienceReplay.buffer_size (er : ExperienceReplay) : ℕ :=
  if er.prioritized then er.st.data_pointer else er.dq.length

/-- A `collections.deque(maxlen = capacity)` append: the leftmost
element is discarded once the length would exceed `capacity`. -/
def dequeAppend (dq : List ℕ) (x : ℕ) (capacity : ℕ) : List ℕ :=
  let d := dq ++ [x]
  if capacity < d.length then d.drop (d.length - capacity) else d

/-- `ExperienceReplay.add` (lines 39-65).  Uniform mode: bounded-deque
append (the explicit `popleft` guard on lines 53-54 can never fire
because the deque is already bounded, and is modelled verbatim).
Prioritized mode: take the max priority over the leaf slice
`tree[-capacity:]`, replace 0 by `absolute_error_upper`, and insert. -/
def ExperienceReplay.add (er : ExperienceReplay) (x : ℕ) : ExperienceReplay :=
  if er.prioritized then
    let max_priority := listMax (er.st.tree.drop (er.st.tree.length - er.st.capacity))
    let max_priority :=
      if max_priority = 0 then ExperienceReplay.absolute_error_upper else max_priority
    { er with st := er.st.add max_priority x }
  else
    let d := dequeAppend er.dq x er.capacity
    if er.capacity < d.length then { er with dq := d.drop 1 } else { er with dq := d }

/-- `random.sample(population, k)`: raises `ValueError` when `k`
exceeds the population size, otherwise yields the `k` records drawn by
the external randomness (`drawn`). -/
def randomSample (population : List ℕ) (k : ℕ) (drawn : List ℕ) : Except String (List ℕ) :=
  if k ≤ population.length then .ok drawn
  else .error "Sample larger than population or is negative"

/-- The recency-forcing loop of `ExperienceReplay.sample` (lines 84-86):
for `i` in `range(k)`, overwrite `batch[-(i+1)]` with `buffer[-(i+1)]`.
Python negative indices are written out as `length - 1 - i`. -/
def forceLast (dq batch : List ℕ) : ℕ → List ℕ
  | 0 => batch
  | k + 1 =>
      (forceLast dq batch k).set (batch.length - 1 - k) (dq.getD (dq.length - 1 - k) 0)

/-- `ExperienceReplay.sample`, uniform mode with `trace_length == 1`
(lines 81-87): draw `batch_size` records without replacement, then
force the last `include_last` positions to the most recent entries. -/
def ExperienceReplay.sampleUniform1 (er : ExperienceReplay) (batch_size : ℕ)
    (drawn : List ℕ) : Except String (List ℕ) :=
  (randomSample er.dq batch_size drawn).map
    (fun batch => forceLast er.dq batch er.include_last)

/-- `ExperienceReplay.sample`, uniform mode with `trace_length > 1`
(lines 75-80): draw `batch_size` starting points from
`range(0, buffer_size - trace_length)` (natural subtraction matches
Python's empty range on a negative bound) and slice out the traces. -/
def ExperienceReplay.sampleTrace (er : ExperienceReplay) (batch_size trace_length : ℕ)
    (points : List ℕ) : Except String (List (List ℕ)) :=
  if batch_size ≤ er.dq.length - trace_length then
    .ok (points.map (fun p => (er.dq.drop p).take trace_length))
  else .error "Sample larger than population or is negative"

/-- The `p_min` computed on line 105: the minimum of the full leaf
slice `tree[-capacity:]` divided by the total priority.  Every one of
the `capacity` slots participates, populated or not. -/
def ExperienceReplay.samplePmin (er : ExperienceReplay) : ℚ :=
  listMin (er.st.tree.drop (er.st.tree.length - er.st.capacity)) / er.st.total_priority

/-- The `max_weight` computed on line 106: the floor `1e-7` when
`p_min` is zero, else `(p_min * batch_size) ** (-beta)`. -/
def ExperienceReplay.sampleMaxWeight (pw : ℚ → ℚ → ℚ) (er : ExperienceReplay)
    (batch_size : ℕ) (beta : ℚ) : ℚ :=
  if er.samplePmin = 0 then 1 / 10000000
  else pw (er.samplePmin * (batch_size : ℚ)) (-beta)

/-- `ExperienceReplay.sample`, prioritized mode (lines 89-130).  The
per-segment uniform draws are supplied in `vs` (one value per loop
iteration).  Beta is annealed first (line 102) and the annealed value
is used in the weights.  Returns `(tree indices, records, weights)`
and the store with its updated `PER_b`.  No size check of any kind is
performed: the loop body always produces a result. -/
def ExperienceReplay.samplePrioritized (pw : ℚ → ℚ → ℚ) (er : ExperienceReplay)
    (batch_size : ℕ) (vs : List ℚ) :
    (List ℕ × List ℕ × List ℚ) × ExperienceReplay :=
  let beta := min 1 (er.PER_b + ExperienceReplay.PER_b_increment)
  let max_weight := er.sampleMaxWeight pw batch_size beta
  let results := vs.map (fun v =>
    let r := er.st.get_leaf v
    let sampling_probability := r.2.1 / er.st.total_priority
    (r.1, r.2.2, pw ((batch_size : ℚ) * sampling_probability) (-beta) / max_weight))
  ((results.map (fun r => r.1), results.map (fun r => r.2.1), results.map (fun r => r.2.2)),
    { er with PER_b := beta })

/-- `ExperienceReplay.batch_update` (lines 132-141).  The in-place
`abs_errors += PER_e` is modelled by returning the mutated array as
the second component.  `zip` silently truncates to the shorter of the
two sequences. -/
def ExperienceReplay.batch_update (pw : ℚ → ℚ → ℚ) (er : ExperienceReplay)
    (tree_idx : List ℕ) (abs_errors : List ℚ) : ExperienceReplay × List ℚ :=
  let abs_errors2 := abs_errors.map (fun e => e + ExperienceReplay.PER_e)
  let clipped_errors := abs_errors2.map (fun e => min e ExperienceReplay.absolute_error_upper)
  let ps := clipped_errors.map (fun e => pw e ExperienceReplay.PER_a)
  ({ er with st := (tree_idx.zip ps).foldl (fun t u => t.update u.1 u.2) er.st }, abs_errors2)

/-- What `pickle.dump` receives in `ExperienceReplay.save`. -/
inductive Saved where
  | noSave : Saved
  | uniformData : List ℕ → Saved
  | prioritizedTree : SumTree → Saved
deriving Repr, DecidableEq

/-- `ExperienceReplay.save` (lines 153-169): a no-op when persistence
is disabled; the whole tree in prioritized mode; otherwise
`islice(buffer, buffer_size - storage_size, buffer_size)`, which
raises `ValueError` when `buffer_size - storage_size` is negative. -/
def ExperienceReplay.save (er : ExperienceReplay) : Except String Saved :=
  if er.save_experience = false then .ok .noSave
  else if er.prioritized then .ok (.prioritizedTree er.st)
  else if er.dq.length < er.storage_size then
    .error "Indices for islice must be None or an integer"
  else .ok (.uniformData (er.dq.drop (er.dq.length - er.storage_size)))

/-- Modelled from the spec: the minimum selection probability `P(i)`
over the currently active (inserted) leaves only — with `numActive`
records inserted and the ring not yet wrapped, these are the first
`numActive` slots of the leaf slice.  This is the quantity the spec
says line 105 computes; the code computes `samplePmin` instead. -/
def pminActive (st : SumTree) (numActive : ℕ) : ℚ :=
  listMin ((st.tree.drop (st.tree.length - st.capacity)).take numActive) / st.total_priority

/-- The leaves of the subtree rooted at node `p` of a flat array-backed
binary tree, listed left to right in tree order (a node is a leaf when
its left-child index `2p+1` falls outside the array). -/
def subtreeLeaves (tree : List ℚ) (p : ℕ) : List ℕ :=
  if tree.length ≤ 2 * p + 1 then [p]
  else subtreeLeaves tree (2 * p + 1) ++ subtreeLeaves tree (2 * p + 2)
termination_by tree.length - p
decreasing_by all_goals (simp_wf; omega)

/-- The cumulative priority mass of the first `k` leaves (in tree
order) of the subtree rooted at `p`. -/
def leafPre (tree : List ℚ) (p k : ℕ) : ℚ :=
  (((subtreeLeaves tree p).take k).map (fun j => tree.getD j 0)).sum

/-- The sum-tree shape invariant: every internal node equals the sum
of its two children. -/
def heapWf (tree : List ℚ) : Prop :=
  ∀ i, i < tree.length → 2 * i + 1 < tree.length →
    tree.getD i 0 = tree.getD (2 * i + 1) 0 + tree.getD (2 * i + 2) 0

/-- An intermediate state of the ancestor walk: the sum invariant
holds everywhere except that the parent of node `i` is still short of
`ch` (once `i` reaches the root there is no exception left). -/
def heapWfExc (tree : List ℚ) (i : ℕ) (ch : ℚ) : Prop :=
  ∀ j, 2 * j + 1 < tree.length →
    if i ≠ 0 ∧ j = (i - 1) / 2
    then tree.getD j 0 + ch = tree.getD (2 * j + 1) 0 + tree.getD (2 * j + 2) 0
    else tree.getD j 0 = tree.getD (2 * j + 1) 0 + tree.getD (2 * j + 2) 0

/-- The total priority mass of row-front `k` of the flat tree: the sum
of the `k` node values at indices `k-1, …, 2k-2`.  Front `1` is the
root; front `capacity` is the leaf slice. -/
def frontSum (tree : List ℚ) (k : ℕ) : ℚ :=
  ((List.range' (k - 1) k).map (fun i => tree.getD i 0)).sum

/-! Unfolding equations for the recursively defined loops. -/

theorem propagate_zero (tree : List ℚ) (ch : ℚ) : propagate tree 0 ch = tree := by
  rw [propagate.eq_def]
  simp

theorem propagate_step (tree : List ℚ) (ch : ℚ) (i : ℕ) (h : i ≠ 0) :
    propagate tree i ch
      = propagate (tree.set ((i - 1) / 2) (tree.getD ((i - 1) / 2) 0 + ch)) ((i - 1) / 2) ch := by
  rw [propagate.eq_def]
  simp [h]

theorem getLeafLoop_leaf (tree : List ℚ) (p : ℕ) (v : ℚ) (h : tree.length ≤ 2 * p + 1) :
    getLeafLoop tree p v = (p, v) := by
  rw [getLeafLoop.eq_def, if_pos h]

theorem getLeafLoop_left (tree : List ℚ) (p : ℕ) (v : ℚ) (h1 : 2 * p + 1 < tree.length)
    (h2 : v ≤ tree.getD (2 * p + 1) 0) :
    getLeafLoop tree p v = getLeafLoop tree (2 * p + 1) v := by
  rw [getLeafLoop.eq_def, if_neg (by omega), if_pos h2]

theorem getLeafLoop_right (tree : List ℚ) (p : ℕ) (v : ℚ) (h1 : 2 * p + 1 < tree.length)
    (h2 : ¬ v ≤ tree.getD (2 * p + 1) 0) :
    getLeafLoop tree p v = getLeafLoop tree (2 * p + 2) (v - tree.getD (2 * p + 1) 0) := by
  rw [getLeafLoop.eq_def, if_neg (by omega), if_neg h2]

theorem subtreeLeaves_leaf (tree : List ℚ) (p : ℕ) (h : tree.length ≤ 2 * p + 1) :
    subtreeLeaves tree p = [p] := by
  rw [subtreeLeaves.eq_def, if_pos h]

theorem subtreeLeaves_node (tree : List ℚ) (p : ℕ) (h : 2 * p + 1 < tree.length) :
    subtreeLeaves tree p = subtreeLeaves tree (2 * p + 1) ++ subtreeLeaves tree (2 * p + 2) := by
  rw [subtreeLeaves.eq_def, if_neg (by omega)]

/-! Generic list facts used throughout. -/

theorem getD_set_self {α : Type} (l : List α) (m : ℕ) (a d : α) (h : m < l.length) :
    (l.set m a).getD m d = a := by
  rw [List.getD_eq_getElem _ _ (by simpa using h)]
  simp

theorem getD_set_ne {α : Type} (l : List α) (m x : ℕ) (a d : α) (h : m ≠ x) :
    (l.set m a).getD x d = l.getD x d := by
  by_cases hx : x < l.length
  · rw [List.getD_eq_getElem _ _ (by simpa using hx), List.getD_eq_getElem _ _ hx]
    exact List.getElem_set_ne h _
  · rw [List.getD_eq_default _ _ (by simp; omega), List.getD_eq_default _ _ (by omega)]

theorem length_propagate (i : ℕ) : ∀ (tree : List ℚ) (ch : ℚ),
    (propagate tree i ch).length = tree.length := by
  induction i using Nat.strong_induction_on with
  | _ i ih =>
    intro tree ch
    by_cases h : i = 0
    · rw [h, propagate_zero]
    · rw [propagate_step _ _ _ h, ih _ (by omega), List.length_set]

theorem length_update (t : SumTree) (i : ℕ) (p : ℚ) :
    (t.update i p).tree.length = t.tree.length := by
  rw [SumTree.update, length_propagate, List.length_set]

/-- C1: for n ≤ capacity prioritized `add` calls the claim demands
`size = n` and beyond capacity a cap at `capacity`; the code returns
the raw ring pointer, which wraps to 0, so after exactly `capacity = 2`
adds the reported size is 0 instead of 2. -/
theorem c1_prioritized_size_wraps :
    (((ExperienceReplay.mkStore false true 2 1 0).add 5).add 6).buffer_size = 0 ∧
    ¬ (((ExperienceReplay.mkStore false true 2 1 0).add 5).add 6).buffer_size = 2 := by
  constructor <;> decide

/-- C7: the bias-correction parameter starts at `PER_b0`, and every
prioritized sample call replaces it by `min 1 (beta + PER_b_increment)`,
which is non-decreasing and stays inside `[PER_b0, 1]`. -/
theorem c7_beta_annealing (pw : ℚ → ℚ → ℚ) (er : ExperienceReplay) (bs : ℕ) (vs : List ℚ)
    (s p : Bool) (c ss nl : ℕ)
    (hlo : ExperienceReplay.PER_b0 ≤ er.PER_b) (hhi : er.PER_b ≤ 1) :
    (ExperienceReplay.mkStore s p c ss nl).PER_b = ExperienceReplay.PER_b0
    ∧ (er.samplePrioritized pw bs vs).2.PER_b
        = min 1 (er.PER_b + ExperienceReplay.PER_b_increment)
    ∧ er.PER_b ≤ (er.samplePrioritized pw bs vs).2.PER_b
    ∧ ExperienceReplay.PER_b0 ≤ (er.samplePrioritized pw bs vs).2.PER_b
    ∧ (er.samplePrioritized pw bs vs).2.PER_b ≤ 1 := by
  have hb : (er.samplePrioritized pw bs vs).2.PER_b
      = min 1 (er.PER_b + ExperienceReplay.PER_b_increment) := rfl
  refine ⟨rfl, hb, ?_, ?_, ?_⟩
  · rw [hb]
    refine le_min hhi ?_
    have : (0 : ℚ) < ExperienceReplay.PER_b_increment := by
      norm_num [ExperienceReplay.PER_b_increment]
    linarith
  · rw [hb]
    refine le_min (by norm_num [ExperienceReplay.PER_b0]) ?_
    have : (0 : ℚ) < ExperienceReplay.PER_b_increment := by
      norm_num [ExperienceReplay.PER_b_increment]
    linarith
  · rw [hb]
    exact min_le_left _ _

/-- C7 witness: a fresh prioritized store sampled once. -/
theorem c7_beta_annealing_witness :
    (ExperienceReplay.mkStore false true 2 1 0).PER_b = ExperienceReplay.PER_b0
    ∧ ((ExperienceReplay.mkStore false true 2 1 0).samplePrioritized (fun x _ => x) 1 []).2.PER_b
        = min 1 ((ExperienceReplay.mkStore false true 2 1 0).PER_b
            + ExperienceReplay.PER_b_increment)
    ∧ (ExperienceReplay.mkStore false true 2 1 0).PER_b
        ≤ ((ExperienceReplay.mkStore false true 2 1 0).samplePrioritized (fun x _ => x) 1 []).2.PER_b
    ∧ ExperienceReplay.PER_b0
        ≤ ((ExperienceReplay.mkStore false true 2 1 0).samplePrioritized (fun x _ => x) 1 []).2.PER_b
    ∧ ((ExperienceReplay.mkStore false true 2 1 0).samplePrioritized (fun x _ => x) 1 []).2.PER_b ≤ 1 :=
  c7_beta_annealing (fun x _ => x) (ExperienceReplay.mkStore false true 2 1 0) 1 [] false true 2 1 0
    (le_of_eq rfl) (by norm_num [ExperienceReplay.mkStore, ExperienceReplay.PER_b0])

/-- C10: `batch_update` mutates the caller's `abs_errors` array in
place — afterwards it has the same length and every element has been
increased by `PER_e = 0.01`. -/
theorem c10_inplace_mutation (pw : ℚ → ℚ → ℚ) (er : ExperienceReplay)
    (idx : List ℕ) (errs : List ℚ) :
    ((er.batch_update pw idx errs).2).length = errs.length
    ∧ ∀ i, i < errs.length →
        ((er.batch_update pw idx errs).2).getD i 0 = errs.getD i 0 + ExperienceReplay.PER_e := by
  have h2 : (er.batch_update pw idx errs).2
      = errs.map (fun e => e + ExperienceReplay.PER_e) := rfl
  constructor
  · rw [h2, List.length_map]
  · intro i hi
    rw [h2, List.getD_eq_getElem _ _ (by simpa using hi), List.getElem_map,
      List.getD_eq_getElem _ _ hi]

/-- C10 witness: a concrete two-element error array. -/
theorem c10_inplace_mutation_witness :
    ((((ExperienceReplay.mkStore false true 2 1 0).add 7).batch_update (fun x _ => x)
        [1] [1/2, 1/3]).2).length = ([1/2, 1/3] : List ℚ).length
    ∧ ((((ExperienceReplay.mkStore false true 2 1 0).add 7).batch_update (fun x _ => x)
        [1] [1/2, 1/3]).2).getD 0 0 = ([1/2, 1/3] : List ℚ).getD 0 0 + ExperienceReplay.PER_e :=
  ⟨(c10_inplace_mutation (fun x _ => x) ((ExperienceReplay.mkStore false true 2 1 0).add 7)
      [1] [1/2, 1/3]).1,
   (c10_inplace_mutation (fun x _ => x) ((ExperienceReplay.mkStore false true 2 1 0).add 7)
      [1] [1/2, 1/3]).2 0 (by norm_num)⟩

/-! Shared concrete states used by several counterexamples: the
prioritized capacity-2 store after a single `add`. -/

theorem add7_st : ((ExperienceReplay.mkStore false true 2 1 0).add 7).st
    = ⟨2, [1, 1, 0], [7, 0], 1⟩ := by
  rw [ExperienceReplay.mkStore, ExperienceReplay.add]
  norm_num [SumTree.init, listMax, List.replicate_succ]
  rw [SumTree.add]
  norm_num [SumTree.update, ExperienceReplay.absolute_error_upper, List.replicate_succ]
  rw [propagate_step _ _ 1 (by norm_num)]
  norm_num [propagate_zero]

theorem get_leaf_quarter : SumTree.get_leaf ⟨2, [1, 1, 0], [7, 0], 1⟩ (1/4) = (1, 1, 7) := by
  rw [SumTree.get_leaf]
  rw [getLeafLoop_left _ _ _ (by norm_num) (by norm_num [List.getD])]
  rw [getLeafLoop_leaf _ _ _ (by norm_num)]
  norm_num [List.getD]

theorem get_leaf_threeq : SumTree.get_leaf ⟨2, [1, 1, 0], [7, 0], 1⟩ (3/4) = (1, 1, 7) := by
  rw [SumTree.get_leaf]
  rw [getLeafLoop_left _ _ _ (by norm_num) (by norm_num [List.getD])]
  rw [getLeafLoop_leaf _ _ _ (by norm_num)]
  norm_num [List.getD]

theorem update_leaf1 : (⟨2, [1, 1, 0], [7, 0], 1⟩ : SumTree).update 1 (51/100)
    = ⟨2, [51/100, 51/100, 0], [7, 0], 1⟩ := by
  rw [SumTree.update]
  norm_num [List.getD]
  rw [propagate_step _ _ 1 (by norm_num)]
  norm_num [propagate_zero, List.getD]

/-! Projection lemmas for the prioritized sampling loop. -/

theorem samplePrioritized_records (pw : ℚ → ℚ → ℚ) (er : ExperienceReplay) (bs : ℕ)
    (vs : List ℚ) :
    (er.samplePrioritized pw bs vs).1.2.1 = vs.map (fun v => (er.st.get_leaf v).2.2) := by
  rw [show (er.samplePrioritized pw bs vs).1.2.1
      = (vs.map (fun v =>
          ((er.st.get_leaf v).1, (er.st.get_leaf v).2.2,
            pw ((bs : ℚ) * ((er.st.get_leaf v).2.1 / er.st.total_priority))
                (-(min 1 (er.PER_b + ExperienceReplay.PER_b_increment)))
              / er.sampleMaxWeight pw bs
                  (min 1 (er.PER_b + ExperienceReplay.PER_b_increment))))).map
          (fun r => r.2.1) from rfl, List.map_map]
  rfl

theorem samplePrioritized_weights (pw : ℚ → ℚ → ℚ) (er : ExperienceReplay) (bs : ℕ)
    (vs : List ℚ) :
    (er.samplePrioritized pw bs vs).1.2.2
      = vs.map (fun v =>
          pw ((bs : ℚ) * ((er.st.get_leaf v).2.1 / er.st.total_priority))
              (-(min 1 (er.PER_b + ExperienceReplay.PER_b_increment)))
            / er.sampleMaxWeight pw bs (min 1 (er.PER_b + ExperienceReplay.PER_b_increment))) := by
  rw [show (er.samplePrioritized pw bs vs).1.2.2
      = (vs.map (fun v =>
          ((er.st.get_leaf v).1, (er.st.get_leaf v).2.2,
            pw ((bs : ℚ) * ((er.st.get_leaf v).2.1 / er.st.total_priority))
                (-(min 1 (er.PER_b + ExperienceReplay.PER_b_increment)))
              / er.sampleMaxWeight pw bs
                  (min 1 (er.PER_b + ExperienceReplay.PER_b_increment))))).map
          (fun r => r.2.2) from rfl, List.map_map]
  rfl

/-- C9 counterexample: a uniform store with persistence enabled whose
buffer holds fewer than `storage_size` records — `save` fails with the
islice range error instead of succeeding. -/
theorem c9_counterexample :
    (ExperienceReplay.mkStore true false 5 1 0).save_experience = true
    ∧ (ExperienceReplay.mkStore true false 5 1 0).prioritized = false
    ∧ (ExperienceReplay.mkStore true false 5 1 0).save
        = .error "Indices for islice must be None or an integer" :=
  ⟨rfl, rfl, rfl⟩

/-- C9 (amended): with persistence enabled in uniform mode, `save`
serializes exactly the most recent `storage_size` records when the
buffer holds at least `storage_size` of them, and fails with the islice
range error when the buffer holds fewer. -/
theorem c9_amended (er : ExperienceReplay) (hs : er.save_experience = true)
    (hp : er.prioritized = false) :
    (er.storage_size ≤ er.dq.length →
      er.save = .ok (.uniformData (er.dq.drop (er.dq.length - er.storage_size)))
      ∧ (er.dq.drop (er.dq.length - er.storage_size)).length = er.storage_size)
    ∧ (er.dq.length < er.storage_size →
      er.save = .error "Indices for islice must be None or an integer") := by
  constructor
  · intro h
    constructor
    · rw [ExperienceReplay.save, if_neg (by simp [hs]), if_neg (by simp [hp]),
        if_neg (by omega)]
    · rw [List.length_drop]
      omega
  · intro h
    rw [ExperienceReplay.save, if_neg (by simp [hs]), if_neg (by simp [hp]), if_pos h]

/-- C9 witness: a three-record buffer with snapshot size two. -/
theorem c9_amended_witness :
    ({ ExperienceReplay.mkStore true false 5 2 0 with dq := [1, 2, 3] } : ExperienceReplay).save
      = .ok (.uniformData (({ ExperienceReplay.mkStore true false 5 2 0 with
          dq := [1, 2, 3] } : ExperienceReplay).dq.drop
          (({ ExperienceReplay.mkStore true false 5 2 0 with
              dq := [1, 2, 3] } : ExperienceReplay).dq.length
            - ({ ExperienceReplay.mkStore true false 5 2 0 with
              dq := [1, 2, 3] } : ExperienceReplay).storage_size)))
    ∧ (({ ExperienceReplay.mkStore true false 5 2 0 with
          dq := [1, 2, 3] } : ExperienceReplay).dq.drop
          (({ ExperienceReplay.mkStore true false 5 2 0 with
              dq := [1, 2, 3] } : ExperienceReplay).dq.length
            - ({ ExperienceReplay.mkStore true false 5 2 0 with
              dq := [1, 2, 3] } : ExperienceReplay).storage_size)).length
        = ({ ExperienceReplay.mkStore true false 5 2 0 with
            dq := [1, 2, 3] } : ExperienceReplay).storage_size :=
  (c9_amended { ExperienceReplay.mkStore true false 5 2 0 with dq := [1, 2, 3] } rfl rfl).1
    (by norm_num [ExperienceReplay.mkStore])

theorem zip_take_min {α β : Type} (l1 : List α) : ∀ (l2 : List β),
    (l1.take (min l1.length l2.length)).zip (l2.take (min l1.length l2.length))
      = l1.zip l2 := by
  induction l1 with
  | nil => intro l2; simp
  | cons a t ih =>
    intro l2
    cases l2 with
    | nil => simp
    | cons b s =>
      have hm : min (a :: t).length (b :: s).length = min t.length s.length + 1 := by
        simp only [List.length_cons]
        omega
      rw [hm]
      simp only [List.take_succ_cons, List.zip_cons_cons, ih]

/-- C6 (amended): `batch_update` raises no error on mismatched lengths;
`zip` silently truncates the pairing to the shorter of the two
sequences, so the resulting store state is the one obtained from the
truncated equal-length call. -/
theorem c6_amended (pw : ℚ → ℚ → ℚ) (er : ExperienceReplay) (idx : List ℕ)
    (errs : List ℚ) :
    (er.batch_update pw idx errs).1
      = (er.batch_update pw (idx.take (min idx.length errs.length))
          (errs.take (min idx.length errs.length))).1 := by
  have h1 : (er.batch_update pw idx errs).1
      = { er with st := ((idx.zip (((errs.map (fun e => e + ExperienceReplay.PER_e)).map
            (fun e => min e ExperienceReplay.absolute_error_upper)).map
            (fun e => pw e ExperienceReplay.PER_a))).foldl
            (fun t u => t.update u.1 u.2) er.st) } := rfl
  have h2 : (er.batch_update pw (idx.take (min idx.length errs.length))
        (errs.take (min idx.length errs.length))).1
      = { er with st := (((idx.take (min idx.length errs.length)).zip
            ((((errs.take (min idx.length errs.length)).map
                (fun e => e + ExperienceReplay.PER_e)).map
                (fun e => min e ExperienceReplay.absolute_error_upper)).map
                (fun e => pw e ExperienceReplay.PER_a))).foldl
            (fun t u => t.update u.1 u.2) er.st) } := rfl
  rw [h1, h2]
  have hmap : (((errs.take (min idx.length errs.length)).map
        (fun e => e + ExperienceReplay.PER_e)).map
        (fun e => min e ExperienceReplay.absolute_error_upper)).map
        (fun e => pw e ExperienceReplay.PER_a)
      = ((((errs.map (fun e => e + ExperienceReplay.PER_e)).map
          (fun e => min e ExperienceReplay.absolute_error_upper)).map
          (fun e => pw e ExperienceReplay.PER_a))).take (min idx.length errs.length) := by
    rw [List.map_take, List.map_take, List.map_take]
  rw [hmap]
  have hlen : min idx.length errs.length
      = min idx.length ((((errs.map (fun e => e + ExperienceReplay.PER_e)).map
          (fun e => min e ExperienceReplay.absolute_error_upper)).map
          (fun e => pw e ExperienceReplay.PER_a))).length := by
    simp
  rw [hlen, zip_take_min]

/-- C6 counterexample: one index paired with two errors — the call
returns a definite store state (no argument-mismatch failure), equal to
the state produced by the truncated one-error call. -/
theorem c6_counterexample :
    (((ExperienceReplay.mkStore false true 2 1 0).add 7).batch_update (fun x _ => x)
        [1] [1/2, 9/10]).1
      = (((ExperienceReplay.mkStore false true 2 1 0).add 7).batch_update (fun x _ => x)
        [1] [1/2]).1
    ∧ (((ExperienceReplay.mkStore false true 2 1 0).add 7).batch_update (fun x _ => x)
        [1] [1/2, 9/10]).1.st.tree = [51/100, 51/100, 0] := by
  have hA : (((ExperienceReplay.mkStore false true 2 1 0).add 7).batch_update (fun x _ => x)
      [1] [1/2, 9/10]).1
      = { ((ExperienceReplay.mkStore false true 2 1 0).add 7) with
          st := ((ExperienceReplay.mkStore false true 2 1 0).add 7).st.update 1 (51/100) } := by
    rw [show (((ExperienceReplay.mkStore false true 2 1 0).add 7).batch_update (fun x _ => x)
        [1] [1/2, 9/10]).1
      = { ((ExperienceReplay.mkStore false true 2 1 0).add 7) with
          st := (([1].zip (((([1/2, 9/10] : List ℚ).map
              (fun e => e + ExperienceReplay.PER_e)).map
              (fun e => min e ExperienceReplay.absolute_error_upper)).map
              (fun e => (fun x _ => x) e ExperienceReplay.PER_a))).foldl
              (fun t u => t.update u.1 u.2)
              ((ExperienceReplay.mkStore false true 2 1 0).add 7).st) } from rfl]
    norm_num [ExperienceReplay.PER_e, ExperienceReplay.absolute_error_upper,
      ExperienceReplay.PER_a, List.zip]
  have hB : (((ExperienceReplay.mkStore false true 2 1 0).add 7).batch_update (fun x _ => x)
      [1] [1/2]).1
      = { ((ExperienceReplay.mkStore false true 2 1 0).add 7) with
          st := ((ExperienceReplay.mkStore false true 2 1 0).add 7).st.update 1 (51/100) } := by
    rw [show (((ExperienceReplay.mkStore false true 2 1 0).add 7).batch_update (fun x _ => x)
        [1] [1/2]).1
      = { ((ExperienceReplay.mkStore false true 2 1 0).add 7) with
          st := (([1].zip (((([1/2] : List ℚ).map
              (fun e => e + ExperienceReplay.PER_e)).map
              (fun e => min e ExperienceReplay.absolute_error_upper)).map
              (fun e => (fun x _ => x) e ExperienceReplay.PER_a))).foldl
              (fun t u => t.update u.1 u.2)
              ((ExperienceReplay.mkStore false true 2 1 0).add 7).st) } from rfl]
    norm_num [ExperienceReplay.PER_e, ExperienceReplay.absolute_error_upper,
      ExperienceReplay.PER_a, List.zip]
  refine ⟨by rw [hA, hB], ?_⟩
  rw [hA]
  show (((ExperienceReplay.mkStore false true 2 1 0).add 7).st.update 1 (51/100)).tree
      = [51/100, 51/100, 0]
  rw [add7_st, update_leaf1]

/-- C5 counterexample: a capacity-2 prioritized store holding one
record.  The only active leaf has selection probability 1, yet the code
computes `p_min` over the full leaf slice — including the unpopulated
zero-priority slot — so `p_min = 0` and the `1e-7` floor is used for
`max_weight` instead of `(p_min_active * batch_size) ** (-beta)`. -/
theorem c5_counterexample :
    ((ExperienceReplay.mkStore false true 2 1 0).add 7).samplePmin = 0
    ∧ pminActive ((ExperienceReplay.mkStore false true 2 1 0).add 7).st 1 = 1
    ∧ ¬ (((ExperienceReplay.mkStore false true 2 1 0).add 7).samplePmin
        = pminActive ((ExperienceReplay.mkStore false true 2 1 0).add 7).st 1)
    ∧ ((ExperienceReplay.mkStore false true 2 1 0).add 7).sampleMaxWeight (fun x _ => x) 2 1
        = 1 / 10000000 := by
  have hpmin : ((ExperienceReplay.mkStore false true 2 1 0).add 7).samplePmin = 0 := by
    rw [ExperienceReplay.samplePmin, add7_st]
    norm_num [listMin, SumTree.total_priority, List.getD]
  have hact : pminActive ((ExperienceReplay.mkStore false true 2 1 0).add 7).st 1 = 1 := by
    rw [pminActive, add7_st]
    norm_num [listMin, SumTree.total_priority, List.getD]
  refine ⟨hpmin, hact, by rw [hpmin, hact]; norm_num, ?_⟩
  rw [ExperienceReplay.sampleMaxWeight, if_pos hpmin]

/-- C5 (amended): each importance weight is
`pw (batch_size * P(i)) (-beta')` divided by `max_weight`, where
`beta'` is the already-annealed beta, `P(i)` is the drawn leaf's
priority over the total, and `max_weight` uses the `p_min` taken over
the full leaf slice (`sampleMaxWeight`), with the `1e-7` floor when
that `p_min` is zero. -/
theorem c5_amended (pw : ℚ → ℚ → ℚ) (er : ExperienceReplay) (bs : ℕ) (vs : List ℚ)
    (i : ℕ) (hi : i < vs.length) :
    ((er.samplePrioritized pw bs vs).1.2.2).getD i 0
      = pw ((bs : ℚ) * ((er.st.get_leaf (vs.getD i 0)).2.1 / er.st.total_priority))
          (-(min 1 (er.PER_b + ExperienceReplay.PER_b_increment)))
        / er.sampleMaxWeight pw bs (min 1 (er.PER_b + ExperienceReplay.PER_b_increment)) := by
  rw [samplePrioritized_weights]
  rw [List.getD_eq_getElem _ _ (by simpa using hi), List.getElem_map,
    List.getD_eq_getElem _ _ hi]

/-- C5 witness: the weight formula evaluated on the one-record store. -/
theorem c5_amended_witness :
    ((((ExperienceReplay.mkStore false true 2 1 0).add 7).samplePrioritized
        (fun x _ => x) 1 [1/2]).1.2.2).getD 0 0
      = (fun x _ => x) ((1 : ℕ) *
            ((((ExperienceReplay.mkStore false true 2 1 0).add 7).st.get_leaf
                (([1/2] : List ℚ).getD 0 0)).2.1
              / ((ExperienceReplay.mkStore false true 2 1 0).add 7).st.total_priority))
          (-(min 1 (((ExperienceReplay.mkStore false true 2 1 0).add 7).PER_b
              + ExperienceReplay.PER_b_increment)))
        / ((ExperienceReplay.mkStore false true 2 1 0).add 7).sampleMaxWeight (fun x _ => x) 1
            (min 1 (((ExperienceReplay.mkStore false true 2 1 0).add 7).PER_b
              + ExperienceReplay.PER_b_increment)) :=
  c5_amended (fun x _ => x) ((ExperienceReplay.mkStore false true 2 1 0).add 7) 1 [1/2] 0
    (by norm_num)

/-- C2 (amended): in uniform mode an oversized `batch_size` fails with
the sampling routine's insufficient-population error (both the
`trace_length == 1` and the `trace_length > 1` branches), but in
prioritized mode no size check exists at all — the call always returns
a full batch, one record per segment draw. -/
theorem c2_amended :
    (∀ (er : ExperienceReplay) (bs : ℕ) (drawn : List ℕ), er.dq.length < bs →
      er.sampleUniform1 bs drawn = .error "Sample larger than population or is negative")
    ∧ (∀ (er : ExperienceReplay) (bs tl : ℕ) (points : List ℕ), er.dq.length - tl < bs →
      er.sampleTrace bs tl points = .error "Sample larger than population or is negative")
    ∧ (∀ (pw : ℚ → ℚ → ℚ) (er : ExperienceReplay) (bs : ℕ) (vs : List ℚ),
      ((er.samplePrioritized pw bs vs).1.2.1).length = vs.length) := by
  refine ⟨?_, ?_, ?_⟩
  · intro er bs drawn h
    rw [ExperienceReplay.sampleUniform1, randomSample, if_neg (by omega)]
    rfl
  · intro er bs tl points h
    rw [ExperienceReplay.sampleTrace, if_neg (by omega)]
  · intro pw er bs vs
    rw [samplePrioritized_records, List.length_map]

/-- C2 amended witness: concrete oversized calls in each mode. -/
theorem c2_amended_witness :
    (ExperienceReplay.mkStore false false 2 1 0).sampleUniform1 1 []
      = .error "Sample larger than population or is negative"
    ∧ (ExperienceReplay.mkStore false false 2 1 0).sampleTrace 1 2 []
      = .error "Sample larger than population or is negative"
    ∧ ((((ExperienceReplay.mkStore false true 2 1 0).add 7).samplePrioritized
        (fun x _ => x) 2 [1/4, 3/4]).1.2.1).length = 2 :=
  ⟨c2_amended.1 (ExperienceReplay.mkStore false false 2 1 0) 1 [] (by norm_num
      [ExperienceReplay.mkStore]),
   c2_amended.2.1 (ExperienceReplay.mkStore false false 2 1 0) 1 2 [] (by norm_num
      [ExperienceReplay.mkStore]),
   c2_amended.2.2 (fun x _ => x) ((ExperienceReplay.mkStore false true 2 1 0).add 7) 2
      [1/4, 3/4]⟩

/-- C2 counterexample: a prioritized store holding one record, sampled
with `batch_size = 2`.  The claim demands a failure; the code silently
returns a two-element batch (the single record drawn twice). -/
theorem c2_counterexample :
    ((ExperienceReplay.mkStore false true 2 1 0).add 7).buffer_size = 1
    ∧ ((((ExperienceReplay.mkStore false true 2 1 0).add 7).samplePrioritized
        (fun x _ => x) 2 [1/4, 3/4]).1.2.1) = [7, 7] := by
  constructor
  · decide
  · rw [samplePrioritized_records]
    simp only [List.map_cons, List.map_nil]
    rw [add7_st, get_leaf_quarter, get_leaf_threeq]

theorem forceLast_length (dq batch : List ℕ) : ∀ k : ℕ,
    (forceLast dq batch k).length = batch.length := by
  intro k
  induction k with
  | zero => rfl
  | succ k ih => rw [forceLast, List.length_set, ih]

theorem forceLast_getD (dq batch : List ℕ) : ∀ k : ℕ, k ≤ batch.length →
    ∀ i, i < k →
      (forceLast dq batch k).getD (batch.length - 1 - i) 0
        = dq.getD (dq.length - 1 - i) 0 := by
  intro k
  induction k with
  | zero => intro _ i hi; omega
  | succ k ih =>
    intro hk i hi
    rw [forceLast]
    by_cases hik : i = k
    · subst hik
      exact getD_set_self _ _ _ _ (by rw [forceLast_length]; omega)
    · rw [getD_set_ne _ _ _ _ _ (by omega)]
      exact ih (by omega) i (by omega)

/-- C8: in uniform mode with `trace_length = 1` and
`include_last ≤ batch_size ≤ buffer size`, the sample succeeds and its
last `include_last` positions hold exactly the `include_last` most
recent buffer entries, most recent last, regardless of the uniform
draw `drawn`. -/
theorem c8_recency_bias (er : ExperienceReplay) (bs : ℕ) (drawn : List ℕ)
    (hlen : drawn.length = bs) (hinc : er.include_last ≤ bs) (hbs : bs ≤ er.dq.length) :
    er.sampleUniform1 bs drawn = .ok (forceLast er.dq drawn er.include_last)
    ∧ (forceLast er.dq drawn er.include_last).length = bs
    ∧ ∀ i, i < er.include_last →
        (forceLast er.dq drawn er.include_last).getD (bs - 1 - i) 0
          = er.dq.getD (er.dq.length - 1 - i) 0 := by
  refine ⟨?_, ?_, ?_⟩
  · rw [ExperienceReplay.sampleUniform1, randomSample, if_pos hbs]
    rfl
  · rw [forceLast_length, hlen]
  · intro i hi
    have h := forceLast_getD er.dq drawn er.include_last (by omega) i hi
    rwa [hlen] at h

/-- C8 witness: `capacity = 5`, `include_last = 2`, a full buffer and a
batch of five draws. -/
theorem c8_recency_bias_witness :
    ({ ExperienceReplay.mkStore false false 5 1 2 with
        dq := [1, 2, 3, 4, 5] } : ExperienceReplay).sampleUniform1 5 [9, 9, 9, 9, 9]
      = .ok (forceLast ({ ExperienceReplay.mkStore false false 5 1 2 with
          dq := [1, 2, 3, 4, 5] } : ExperienceReplay).dq [9, 9, 9, 9, 9]
          ({ ExperienceReplay.mkStore false false 5 1 2 with
            dq := [1, 2, 3, 4, 5] } : ExperienceReplay).include_last)
    ∧ (forceLast ({ ExperienceReplay.mkStore false false 5 1 2 with
          dq := [1, 2, 3, 4, 5] } : ExperienceReplay).dq [9, 9, 9, 9, 9]
          ({ ExperienceReplay.mkStore false false 5 1 2 with
            dq := [1, 2, 3, 4, 5] } : ExperienceReplay).include_last).length = 5
    ∧ ∀ i, i < ({ ExperienceReplay.mkStore false false 5 1 2 with
          dq := [1, 2, 3, 4, 5] } : ExperienceReplay).include_last →
        (forceLast ({ ExperienceReplay.mkStore false false 5 1 2 with
            dq := [1, 2, 3, 4, 5] } : ExperienceReplay).dq [9, 9, 9, 9, 9]
            ({ ExperienceReplay.mkStore false false 5 1 2 with
              dq := [1, 2, 3, 4, 5] } : ExperienceReplay).include_last).getD (5 - 1 - i) 0
          = ({ ExperienceReplay.mkStore false false 5 1 2 with
              dq := [1, 2, 3, 4, 5] } : ExperienceReplay).dq.getD
              (({ ExperienceReplay.mkStore false false 5 1 2 with
                dq := [1, 2, 3, 4, 5] } : ExperienceReplay).dq.length - 1 - i) 0 :=
  c8_recency_bias
    { ExperienceReplay.mkStore false false 5 1 2 with dq := [1, 2, 3, 4, 5] }
    5 [9, 9, 9, 9, 9] rfl
    (by norm_num [ExperienceReplay.mkStore])
    (by norm_num [ExperienceReplay.mkStore])

theorem getD_replicate_zero (n i : ℕ) : (List.replicate n (0 : ℚ)).getD i 0 = 0 := by
  by_cases h : i < n
  · rw [List.getD_eq_getElem _ _ (by simpa using h)]
    simp
  · rw [List.getD_eq_default _ _ (by simpa using h)]

theorem propagate_heapWf : ∀ (i : ℕ) (tree : List ℚ) (ch : ℚ), i < tree.length →
    heapWfExc tree i ch → heapWf (propagate tree i ch) := by
  intro i
  induction i using Nat.strong_induction_on with
  | _ i ih =>
    intro tree ch hi hexc
    by_cases h0 : i = 0
    · subst h0
      rw [propagate_zero]
      intro j hj1 hj2
      have h := hexc j hj2
      rw [if_neg (by omega)] at h
      exact h
    · rw [propagate_step _ _ _ h0]
      apply ih ((i - 1) / 2) (by omega)
      · rw [List.length_set]
        omega
      · intro j hj
        rw [List.length_set] at hj
        have hlen : tree.length = (tree.set ((i - 1) / 2)
            (tree.getD ((i - 1) / 2) 0 + ch)).length := by rw [List.length_set]
        by_cases hcase : j = (i - 1) / 2
        · -- the node just incremented: its own equation, shifted by ch
          rw [if_neg (by omega)]
          have hold := hexc j (by omega)
          rw [if_pos (by omega)] at hold
          rw [hcase]
          rw [getD_set_self _ _ _ _ (by omega),
            getD_set_ne _ _ _ _ _ (by omega), getD_set_ne _ _ _ _ _ (by omega)]
          rw [hcase] at hold
          exact hold
        · by_cases hpar : (i - 1) / 2 ≠ 0 ∧ j = ((i - 1) / 2 - 1) / 2
          · -- the parent of the incremented node
            rw [if_pos hpar]
            have hchild : (i - 1) / 2 = 2 * j + 1 ∨ (i - 1) / 2 = 2 * j + 2 := by omega
            have hold := hexc j (by omega)
            rw [if_neg (by omega)] at hold
            rcases hchild with h | h
            · rw [h]
              rw [getD_set_ne _ _ _ _ _ (by omega), getD_set_self _ _ _ _ (by omega),
                getD_set_ne _ _ _ _ _ (by omega)]
              linarith
            · rw [h]
              rw [getD_set_ne _ _ _ _ _ (by omega), getD_set_ne _ _ _ _ _ (by omega),
                getD_set_self _ _ _ _ (by omega)]
              linarith
          · -- untouched node with untouched children
            rw [if_neg hpar]
            have hold := hexc j (by omega)
            rw [if_neg (by omega)] at hold
            rw [getD_set_ne _ _ _ _ _ (by omega), getD_set_ne _ _ _ _ _ (by omega),
              getD_set_ne _ _ _ _ _ (by omega)]
            exact hold

theorem update_heapWf (t : SumTree) (i : ℕ) (p : ℚ) (hi : i < t.tree.length)
    (hleaf : t.tree.length ≤ 2 * i + 1) (hwf : heapWf t.tree) :
    heapWf (t.update i p).tree := by
  rw [SumTree.update]
  apply propagate_heapWf i _ _ (by rw [List.length_set]; exact hi)
  intro j hj
  rw [List.length_set] at hj
  by_cases hcase : i ≠ 0 ∧ j = (i - 1) / 2
  · rw [if_pos hcase]
    have hchild : i = 2 * j + 1 ∨ i = 2 * j + 2 := by omega
    have hold := hwf j (by omega) (by omega)
    rcases hchild with h | h
    · rw [h]
      rw [getD_set_ne _ _ _ _ _ (by omega), getD_set_self _ _ _ _ (by omega),
        getD_set_ne _ _ _ _ _ (by omega)]
      linarith
    · rw [h]
      rw [getD_set_ne _ _ _ _ _ (by omega), getD_set_ne _ _ _ _ _ (by omega),
        getD_set_self _ _ _ _ (by omega)]
      linarith
  · rw [if_neg hcase]
    have hold := hwf j (by omega) (by omega)
    rw [getD_set_ne _ _ _ _ _ (by omega), getD_set_ne _ _ _ _ _ (by omega),
      getD_set_ne _ _ _ _ _ (by omega)]
    exact hold

theorem frontSum_one (tree : List ℚ) : frontSum tree 1 = tree.getD 0 0 := by
  rw [frontSum]
  simp

theorem frontSum_step (tree : List ℚ) (c k : ℕ) (hlen : tree.length = 2 * c - 1)
    (hwf : heapWf tree) (hk1 : 1 ≤ k) (hkc : k < c) :
    frontSum tree (k + 1) = frontSum tree k := by
  have e1 : List.range' (k - 1) k = (k - 1) :: List.range' k (k - 1) := by
    obtain ⟨m, rfl⟩ : ∃ m, k = m + 1 := ⟨k - 1, by omega⟩
    simpa using List.range'_succ m m 1
  have e2 : List.range' k (k + 1) = List.range' k (k - 1) ++ [2 * k - 1, 2 * k] := by
    have h3 := List.range'_append_1 k (k - 1) 2
    have h1 : k + (k - 1) = 2 * k - 1 := by omega
    have h2 : 2 + (k - 1) = k + 1 := by omega
    rw [h1, h2] at h3
    rw [← h3]
    congr 1
    have : (2 * k - 1) + 1 = 2 * k := by omega
    rw [List.range'_succ]
    simp [this]
  have hw := hwf (k - 1) (by omega) (by omega)
  have i1 : 2 * (k - 1) + 1 = 2 * k - 1 := by omega
  have i2 : 2 * (k - 1) + 2 = 2 * k := by omega
  rw [i1, i2] at hw
  rw [frontSum, frontSum]
  have hk1' : k + 1 - 1 = k := by omega
  rw [hk1', e1, e2]
  simp only [List.map_append, List.sum_append, List.map_cons, List.sum_cons,
    List.map_nil, List.sum_nil]
  linarith

theorem frontSum_chain (tree : List ℚ) (c : ℕ) (hlen : tree.length = 2 * c - 1)
    (hwf : heapWf tree) : ∀ k, 1 ≤ k → k ≤ c → frontSum tree k = tree.getD 0 0 := by
  intro k
  induction k with
  | zero => omega
  | succ k ih =>
    intro _ hkc
    by_cases hk : k = 0
    · subst hk
      exact frontSum_one tree
    · rw [frontSum_step tree c k hlen hwf (by omega) (by omega)]
      exact ih (by omega) (by omega)

theorem sum_range'_getD (tree : List ℚ) : ∀ (b a : ℕ), a + b ≤ tree.length →
    ((List.range' a b).map (fun i => tree.getD i 0)).sum = ((tree.drop a).take b).sum := by
  intro b
  induction b with
  | zero => intro a _; simp
  | succ b ih =>
    intro a h
    rw [List.range'_succ]
    simp only [List.map_cons, List.sum_cons]
    rw [List.drop_eq_getElem_cons (show a < tree.length by omega), List.take_succ_cons,
      List.sum_cons, ih (a + 1) (by omega),
      List.getD_eq_getElem _ _ (show a < tree.length by omega)]

theorem root_eq_leafSum (tree : List ℚ) (c : ℕ) (hc : 1 ≤ c)
    (hlen : tree.length = 2 * c - 1) (hwf : heapWf tree) :
    tree.getD 0 0 = (tree.drop (c - 1)).sum := by
  have h1 := frontSum_chain tree c hlen hwf c hc le_rfl
  rw [frontSum] at h1
  rw [sum_range'_getD tree c (c - 1) (by omega)] at h1
  rw [← h1]
  congr 1
  have hd : (tree.drop (c - 1)).length = c := by
    rw [List.length_drop]
    omega
  rw [List.take_of_length_le (by omega)]

/-- C4: starting from a fresh tree, after any sequence of `update`
calls at leaf indices (repeats allowed, exact arithmetic), every
internal node equals the sum of its two children, and `total_priority`
equals the sum of the leaf slice `tree[capacity-1 :]`. -/
theorem c4_sum_invariant (c : ℕ) (hc : 1 ≤ c) (us : List (ℕ × ℚ))
    (hus : ∀ u ∈ us, c - 1 ≤ u.1 ∧ u.1 < 2 * c - 1) :
    heapWf (us.foldl (fun t u => t.update u.1 u.2) (SumTree.init c)).tree
    ∧ (us.foldl (fun t u => t.update u.1 u.2) (SumTree.init c)).total_priority
      = ((us.foldl (fun t u => t.update u.1 u.2) (SumTree.init c)).tree.drop (c - 1)).sum := by
  have main : ∀ (vs : List (ℕ × ℚ)), (∀ u ∈ vs, c - 1 ≤ u.1 ∧ u.1 < 2 * c - 1) →
      ∀ (t : SumTree), heapWf t.tree → t.tree.length = 2 * c - 1 →
      heapWf ((vs.foldl (fun t u => t.update u.1 u.2) t)).tree
      ∧ ((vs.foldl (fun t u => t.update u.1 u.2) t)).tree.length = 2 * c - 1 := by
    intro vs
    induction vs with
    | nil =>
      intro _ t hwf hl
      exact ⟨hwf, hl⟩
    | cons u rest ih =>
      intro hmem t hwf hl
      simp only [List.foldl_cons]
      apply ih (fun v hv => hmem v (by simp [hv]))
      · apply update_heapWf
        · rw [hl]
          exact (hmem u (by simp)).2
        · rw [hl]
          have := (hmem u (by simp)).1
          omega
        · exact hwf
      · rw [length_update, hl]
  have base_wf : heapWf (SumTree.init c).tree := by
    intro i h1 h2
    simp only [SumTree.init] at *
    rw [getD_replicate_zero, getD_replicate_zero, getD_replicate_zero]
    norm_num
  have base_len : (SumTree.init c).tree.length = 2 * c - 1 := by
    simp [SumTree.init]
  obtain ⟨hwf, hlen⟩ := main us hus (SumTree.init c) base_wf base_len
  refine ⟨hwf, ?_⟩
  rw [SumTree.total_priority]
  exact root_eq_leafSum _ c hc hlen hwf

/-- C4 witness: capacity 2 with three leaf updates, one repeated. -/
theorem c4_sum_invariant_witness :
    heapWf (([(1, 5), (2, 3), (1, 2)] : List (ℕ × ℚ)).foldl
        (fun t u => t.update u.1 u.2) (SumTree.init 2)).tree
    ∧ (([(1, 5), (2, 3), (1, 2)] : List (ℕ × ℚ)).foldl
        (fun t u => t.update u.1 u.2) (SumTree.init 2)).total_priority
      = ((([(1, 5), (2, 3), (1, 2)] : List (ℕ × ℚ)).foldl
          (fun t u => t.update u.1 u.2) (SumTree.init 2)).tree.drop (2 - 1)).sum :=
  c4_sum_invariant 2 (by norm_num) [(1, 5), (2, 3), (1, 2)] (by decide)

theorem subtreeLeaves_sum (tree : List ℚ) (hwf : heapWf tree) : ∀ (m p : ℕ),
    tree.length - p ≤ m →
    ((subtreeLeaves tree p).map (fun j => tree.getD j 0)).sum = tree.getD p 0 := by
  intro m
  induction m with
  | zero =>
    intro p hm
    rw [subtreeLeaves_leaf _ _ (by omega)]
    simp
  | succ m ih =>
    intro p hm
    by_cases hleaf : tree.length ≤ 2 * p + 1
    · rw [subtreeLeaves_leaf _ _ hleaf]
      simp
    · rw [subtreeLeaves_node _ _ (by omega), List.map_append, List.sum_append,
        ih (2 * p + 1) (by omega), ih (2 * p + 2) (by omega)]
      exact (hwf p (by omega) (by omega)).symm

theorem getLeafLoop_bounds (tree : List ℚ) (hwf : heapWf tree) :
    ∀ (m p : ℕ) (v : ℚ), tree.length - p ≤ m → 0 ≤ v → v ≤ tree.getD p 0 →
    ∃ k, k < (subtreeLeaves tree p).length
      ∧ (getLeafLoop tree p v).1 = (subtreeLeaves tree p).getD k 0
      ∧ leafPre tree p k ≤ v
      ∧ v ≤ leafPre tree p k + tree.getD ((subtreeLeaves tree p).getD k 0) 0 := by
  intro m
  induction m with
  | zero =>
    intro p v hm h0 hv
    have hleaf : tree.length ≤ 2 * p + 1 := by omega
    rw [getLeafLoop_leaf _ _ _ hleaf]
    refine ⟨0, ?_, ?_, ?_, ?_⟩
    · rw [subtreeLeaves_leaf _ _ hleaf]
      norm_num
    · rw [subtreeLeaves_leaf _ _ hleaf]
      rfl
    · simpa [leafPre] using h0
    · simpa [leafPre, subtreeLeaves_leaf _ _ hleaf] using hv
  | succ m ih =>
    intro p v hm h0 hv
    by_cases hleaf : tree.length ≤ 2 * p + 1
    · rw [getLeafLoop_leaf _ _ _ hleaf]
      refine ⟨0, ?_, ?_, ?_, ?_⟩
      · rw [subtreeLeaves_leaf _ _ hleaf]
        norm_num
      · rw [subtreeLeaves_leaf _ _ hleaf]
        rfl
      · simpa [leafPre] using h0
      · simpa [leafPre, subtreeLeaves_leaf _ _ hleaf] using hv
    · have hwfp := hwf p (by omega) (by omega)
      by_cases hbr : v ≤ tree.getD (2 * p + 1) 0
      · -- descend left
        rw [getLeafLoop_left _ _ _ (by omega) hbr]
        obtain ⟨k, hk1, hk2, hk3, hk4⟩ := ih (2 * p + 1) v (by omega) h0 hbr
        have hpre : leafPre tree p k = leafPre tree (2 * p + 1) k := by
          rw [leafPre, leafPre, subtreeLeaves_node tree p (by omega),
            List.take_append_of_le_length (by omega)]
        refine ⟨k, ?_, ?_, ?_, ?_⟩
        · rw [subtreeLeaves_node tree p (by omega), List.length_append]
          omega
        · rw [subtreeLeaves_node tree p (by omega), List.getD_append _ _ _ _ hk1]
          exact hk2
        · rw [hpre]
          exact hk3
        · rw [hpre, subtreeLeaves_node tree p (by omega), List.getD_append _ _ _ _ hk1]
          exact hk4
      · -- descend right
        rw [getLeafLoop_right _ _ _ (by omega) hbr]
        have hv' : v - tree.getD (2 * p + 1) 0 ≤ tree.getD (2 * p + 2) 0 := by
          linarith
        have h0' : 0 ≤ v - tree.getD (2 * p + 1) 0 := by
          have := not_le.mp hbr
          linarith
        obtain ⟨k, hk1, hk2, hk3, hk4⟩ := ih (2 * p + 2) (v - tree.getD (2 * p + 1) 0)
          (by omega) h0' hv'
        have hsum : ((subtreeLeaves tree (2 * p + 1)).map (fun j => tree.getD j 0)).sum
            = tree.getD (2 * p + 1) 0 :=
          subtreeLeaves_sum tree hwf tree.length (2 * p + 1) (by omega)
        have hpre : leafPre tree p ((subtreeLeaves tree (2 * p + 1)).length + k)
            = tree.getD (2 * p + 1) 0 + leafPre tree (2 * p + 2) k := by
          rw [leafPre, leafPre, subtreeLeaves_node tree p (by omega), List.take_append,
            List.map_append, List.sum_append, hsum]
        have hgetd : (subtreeLeaves tree p).getD
              ((subtreeLeaves tree (2 * p + 1)).length + k) 0
            = (subtreeLeaves tree (2 * p + 2)).getD k 0 := by
          rw [subtreeLeaves_node tree p (by omega),
            List.getD_append_right _ _ _ _ (by omega)]
          congr 1
          omega
        refine ⟨(subtreeLeaves tree (2 * p + 1)).length + k, ?_, ?_, ?_, ?_⟩
        · rw [subtreeLeaves_node tree p (by omega), List.length_append]
          omega
        · rw [hgetd]
          exact hk2
        · rw [hpre]
          linarith
        · rw [hpre, hgetd]
          linarith

/-- C3 (amended): for a well-formed tree and `v` in
`[0, total_priority)`, `get_leaf v` returns a leaf (the `k`-th leaf in
left-to-right tree order) whose cumulative priority-sum of preceding
leaves is `≤ v`, and `v` is at most that sum plus the leaf's own
priority — the bound is closed on the right, not strict, because the
`<=` comparison sends boundary draws into the left subtree; for the
same reason a zero-priority leaf can be returned when `v` equals the
cumulative sum at its position. -/
theorem c3_amended (t : SumTree) (v : ℚ) (hwf : heapWf t.tree)
    (h0 : 0 ≤ v) (hv : v < t.total_priority) :
    ∃ k, k < (subtreeLeaves t.tree 0).length
      ∧ (t.get_leaf v).1 = (subtreeLeaves t.tree 0).getD k 0
      ∧ (t.get_leaf v).2.1 = t.tree.getD ((subtreeLeaves t.tree 0).getD k 0) 0
      ∧ leafPre t.tree 0 k ≤ v
      ∧ v ≤ leafPre t.tree 0 k + (t.get_leaf v).2.1 := by
  obtain ⟨k, hk1, hk2, hk3, hk4⟩ :=
    getLeafLoop_bounds t.tree hwf t.tree.length 0 v (by omega) h0 (le_of_lt hv)
  have hpr : (t.get_leaf v).2.1 = t.tree.getD ((subtreeLeaves t.tree 0).getD k 0) 0 := by
    show t.tree.getD (getLeafLoop t.tree 0 v).1 0 = _
    rw [hk2]
  refine ⟨k, hk1, hk2, hpr, hk3, ?_⟩
  rw [hpr]
  exact hk4

/-- C3 counterexample: on the well-formed capacity-2 tree with leaf
priorities `[1, 2]`, the boundary draw `v = 1 ∈ [0, 3)` returns the
first leaf (prefix sum 0, priority 1), violating the strict bound
`v < 0 + 1`; and on the update-built tree with leaf priorities `[0, 5]`
the valid draw `v = 0 ∈ [0, 5)` returns the never-populated leaf of
priority 0. -/
theorem c3_counterexample :
    heapWf [3, 1, 2]
    ∧ (0 : ℚ) ≤ 1 ∧ (1 : ℚ) < SumTree.total_priority ⟨2, [3, 1, 2], [10, 20], 0⟩
    ∧ (SumTree.get_leaf ⟨2, [3, 1, 2], [10, 20], 0⟩ 1).1
        = (subtreeLeaves [3, 1, 2] 0).getD 0 0
    ∧ leafPre [3, 1, 2] 0 0 = 0
    ∧ (SumTree.get_leaf ⟨2, [3, 1, 2], [10, 20], 0⟩ 1).2.1 = 1
    ∧ ¬ ((1 : ℚ) < leafPre [3, 1, 2] 0 0
        + (SumTree.get_leaf ⟨2, [3, 1, 2], [10, 20], 0⟩ 1).2.1)
    ∧ (SumTree.init 2).update 2 5 = ⟨2, [5, 0, 5], [0, 0], 0⟩
    ∧ (0 : ℚ) < SumTree.total_priority ⟨2, [5, 0, 5], [0, 0], 0⟩
    ∧ (SumTree.get_leaf ⟨2, [5, 0, 5], [0, 0], 0⟩ 0).2.1 = 0
    ∧ (SumTree.get_leaf ⟨2, [5, 0, 5], [0, 0], 0⟩ 0).1 = 1 := by
  have hwf312 : heapWf [3, 1, 2] := by
    intro i h1 h2
    have h3 : i < 3 := by simpa using h1
    interval_cases i <;> norm_num [List.getD] at h2 ⊢
  have hgl1 : SumTree.get_leaf ⟨2, [3, 1, 2], [10, 20], 0⟩ 1 = (1, 1, 10) := by
    rw [SumTree.get_leaf]
    rw [getLeafLoop_left _ _ _ (by norm_num) (by norm_num [List.getD])]
    rw [getLeafLoop_leaf _ _ _ (by norm_num)]
    norm_num [List.getD]
  have hgl2 : SumTree.get_leaf ⟨2, [5, 0, 5], [0, 0], 0⟩ 0 = (1, 0, 0) := by
    rw [SumTree.get_leaf]
    rw [getLeafLoop_left _ _ _ (by norm_num) (by norm_num [List.getD])]
    rw [getLeafLoop_leaf _ _ _ (by norm_num)]
    norm_num [List.getD]
  have hleaves : subtreeLeaves [3, 1, 2] 0 = [1, 2] := by
    rw [subtreeLeaves_node _ _ (by norm_num), subtreeLeaves_leaf _ _ (by norm_num),
      subtreeLeaves_leaf _ _ (by norm_num)]
    rfl
  have hupd : (SumTree.init 2).update 2 5 = ⟨2, [5, 0, 5], [0, 0], 0⟩ := by
    rw [SumTree.init, SumTree.update]
    norm_num [List.replicate_succ, List.getD]
    rw [propagate_step _ _ 2 (by norm_num)]
    norm_num [propagate_zero, List.getD]
  refine ⟨hwf312, by norm_num, by norm_num [SumTree.total_priority, List.getD],
    ?_, ?_, ?_, ?_, hupd, by norm_num [SumTree.total_priority, List.getD], ?_, ?_⟩
  · rw [hgl1, hleaves]
    rfl
  · simp [leafPre]
  · rw [hgl1]
  · rw [hgl1]
    simp [leafPre]
  · rw [hgl2]
  · rw [hgl2]

/-- C3 witness: the amended bound instantiated on the `[1, 2]` tree at
the interior draw `v = 3/2`. -/
theorem c3_amended_witness :
    heapWf ([3, 1, 2] : List ℚ)
    ∧ (0 : ℚ) ≤ 3/2
    ∧ (3/2 : ℚ) < SumTree.total_priority ⟨2, [3, 1, 2], [10, 20], 0⟩
    ∧ ∃ k, k < (subtreeLeaves (⟨2, [3, 1, 2], [10, 20], 0⟩ : SumTree).tree 0).length
      ∧ ((⟨2, [3, 1, 2], [10, 20], 0⟩ : SumTree).get_leaf (3/2)).1
          = (subtreeLeaves (⟨2, [3, 1, 2], [10, 20], 0⟩ : SumTree).tree 0).getD k 0
      ∧ ((⟨2, [3, 1, 2], [10, 20], 0⟩ : SumTree).get_leaf (3/2)).2.1
          = (⟨2, [3, 1, 2], [10, 20], 0⟩ : SumTree).tree.getD
              ((subtreeLeaves (⟨2, [3, 1, 2], [10, 20], 0⟩ : SumTree).tree 0).getD k 0) 0
      ∧ leafPre (⟨2, [3, 1, 2], [10, 20], 0⟩ : SumTree).tree 0 k ≤ 3/2
      ∧ (3/2 : ℚ) ≤ leafPre (⟨2, [3, 1, 2], [10, 20], 0⟩ : SumTree).tree 0 k
          + ((⟨2, [3, 1, 2], [10, 20], 0⟩ : SumTree).get_leaf (3/2)).2.1 :=
  have hwf312 : heapWf [3, 1, 2] := by
    intro i h1 h2
    have h3 : i < 3 := by simpa using h1
    interval_cases i <;> norm_num [List.getD] at h2 ⊢
  ⟨hwf312, by norm_num, by norm_num [SumTree.total_priority, List.getD],
    c3_amended ⟨2, [3, 1, 2], [10, 20], 0⟩ (3/2) hwf312 (by norm_num)
      (by norm_num [SumTree.total_priority, List.getD])⟩
